import Mathlib

/-!
Verification of the schema-driven query execution core of COBEY-DB-API.

The development shallowly embeds the Python sources:
  * `src/db/queries/builder.py`   — the fluent `SQLBuilder`;
  * `src/db/queries/executor.py`  — the `QueryExecutor` CRUD operations;
  * `src/db/introspection.py`     — the SQL-to-Python type mapper;
  * `src/db/migrations/manager.py` and `src/db/connection.py` — the
    migration ledger manager and the pooled connection.

Python values are modelled by `Value`, Python dicts by ordered association
lists, fallible constructors by `Except`, and database I/O by explicit
oracle functions (`fetchrow`, `execute`) plus traces of issued statements.
-/

/-- Python runtime values flowing through the data layer: strings, ints,
booleans, None, and the structured JSON values (lists and dicts). -/
inductive Value where
  | vstr (s : String)
  | vint (n : Int)
  | vbool (b : Bool)
  | vnull
  | varr (elems : List Value)
  | vobj (fields : List (String × Value))

/-- strUpper embeds Python's str.upper (ASCII case mapping, as used on the
`direction` argument of `order_by`). -/
def strUpper (s : String) : String := String.mk (s.data.map Char.toUpper)

/-- strLower embeds Python's str.lower (ASCII case mapping, as used on the
type-name argument of `map_postgres_type_to_python`). -/
def strLower (s : String) : String := String.mk (s.data.map Char.toLower)

/-- joinSep sep xs embeds Python's sep.join(xs): the elements of xs
concatenated with sep between consecutive elements. -/
def joinSep (sep : String) : List String → String
  | [] => ""
  | [x] => x
  | x :: y :: xs => x ++ sep ++ joinSep sep (y :: xs)

/-- containsSub hay sub decides whether sub occurs as a contiguous substring
of hay (Python's `sub in hay`). -/
def containsSub (hay sub : List Char) : Bool :=
  (List.range (hay.length + 1)).any (fun i => sub.isPrefixOf (hay.drop i))

/-- State of the query builder of src/src/db/queries/builder.py: the
accumulated SQL text `self.sql`, the positional parameter list
`self.params`, and the WHERE flag `self._has_where`. -/
structure SQLBuilder where
  sql : String
  params : List Value
  _has_where : Bool

/-- SQLBuilder.__init__: empty text, no parameters, no WHERE yet. -/
def SQLBuilder.init : SQLBuilder :=
  { sql := "", params := [], _has_where := false }

/-- SQLBuilder.select classmethod: seeds `SELECT * FROM {table}`. -/
def SQLBuilder.select (table : String) : SQLBuilder :=
  { SQLBuilder.init with sql := "SELECT * FROM " ++ table }

/-- SQLBuilder.insert classmethod: seeds
`INSERT INTO {table} ({columns}) VALUES ({placeholders}) RETURNING *` with
the dict values as parameters; raises ValueError when data is empty. -/
def SQLBuilder.insert (table : String) (data : List (String × Value)) :
    Except String SQLBuilder :=
  if data.isEmpty then Except.error "No data provided for INSERT"
  else
    let columns := joinSep ", " (data.map Prod.fst)
    let placeholders :=
      joinSep ", " ((List.range data.length).map (fun i => "$" ++ Nat.repr (i + 1)))
    Except.ok
      { SQLBuilder.init with
        sql := "INSERT INTO " ++ table ++ " (" ++ columns ++ ") VALUES (" ++
          placeholders ++ ") RETURNING *"
        params := data.map Prod.snd }

/-- SQLBuilder.update classmethod: seeds `UPDATE {table} SET {sets}` with the
dict values as parameters; raises ValueError when data is empty. -/
def SQLBuilder.update (table : String) (data : List (String × Value)) :
    Except String SQLBuilder :=
  if data.isEmpty then Except.error "No data provided for UPDATE"
  else
    let sets :=
      joinSep ", "
        ((data.map Prod.fst).enum.map (fun ik => ik.2 ++ " = $" ++ Nat.repr (ik.1 + 1)))
    Except.ok
      { SQLBuilder.init with
        sql := "UPDATE " ++ table ++ " SET " ++ sets
        params := data.map Prod.snd }

/-- SQLBuilder.delete classmethod: seeds `DELETE FROM {table}`. -/
def SQLBuilder.delete (table : String) : SQLBuilder :=
  { SQLBuilder.init with sql := "DELETE FROM " ++ table }

/-- SQLBuilder.where (spelled where_, since `where` is a Lean keyword): the
first call appends ` WHERE {condition}`, later calls append
` AND {condition}`. -/
def SQLBuilder.where_ (b : SQLBuilder) (condition : String) : SQLBuilder :=
  if b._has_where then { b with sql := b.sql ++ " AND " ++ condition }
  else { b with sql := b.sql ++ " WHERE " ++ condition, _has_where := true }

/-- SQLBuilder.and_where: delegates to where_ when no predicate exists yet,
otherwise appends ` AND {condition}`. -/
def SQLBuilder.and_where (b : SQLBuilder) (condition : String) : SQLBuilder :=
  if b._has_where then { b with sql := b.sql ++ " AND " ++ condition }
  else b.where_ condition

/-- SQLBuilder.or_where: delegates to where_ when no predicate exists yet,
otherwise appends ` OR {condition}`. -/
def SQLBuilder.or_where (b : SQLBuilder) (condition : String) : SQLBuilder :=
  if b._has_where then { b with sql := b.sql ++ " OR " ++ condition }
  else b.where_ condition

/-- SQLBuilder.order_by: upper-cases the direction, coerces anything other
than ASC or DESC to ASC, and appends ` ORDER BY {column} {direction}`. -/
def SQLBuilder.order_by (b : SQLBuilder) (column direction : String) : SQLBuilder :=
  let d := strUpper direction
  let d := if d = "ASC" ∨ d = "DESC" then d else "ASC"
  { b with sql := b.sql ++ " ORDER BY " ++ column ++ " " ++ d }

/-- SQLBuilder.limit: appends ` LIMIT {limit}` (the integer is formatted
into the text, as in the source's f-string). -/
def SQLBuilder.limit (b : SQLBuilder) (n : Int) : SQLBuilder :=
  { b with sql := b.sql ++ " LIMIT " ++ Int.repr n }

/-- SQLBuilder.offset: appends ` OFFSET {offset}` (the integer is formatted
into the text, as in the source's f-string). -/
def SQLBuilder.offset (b : SQLBuilder) (n : Int) : SQLBuilder :=
  { b with sql := b.sql ++ " OFFSET " ++ Int.repr n }

/-- SQLBuilder.returning: appends ` RETURNING {columns}` unless the text
already contains " RETURNING ". -/
def SQLBuilder.returning (b : SQLBuilder) (columns : String) : SQLBuilder :=
  if containsSub b.sql.data " RETURNING ".data then b
  else { b with sql := b.sql ++ " RETURNING " ++ columns }

/-- SQLBuilder.build: returns the final text and parameter list. -/
def SQLBuilder.build (b : SQLBuilder) : String × List Value :=
  (b.sql, b.params)

/-- Python-level types that the type mapper can produce (datetime stands for
Python's datetime.datetime; pyAny is typing.Any, the opaque fallback). -/
inductive PyType where
  | pyInt
  | pyFloat
  | pyStr
  | pyBool
  | pyDatetime
  | pyDict
  | pyAny
deriving DecidableEq

/-- The literal type_mapping table inside map_postgres_type_to_python
(src/src/db/introspection.py). -/
def type_mapping : List (String × (PyType × Bool)) :=
  [("integer", (PyType.pyInt, false)),
   ("bigint", (PyType.pyInt, false)),
   ("smallint", (PyType.pyInt, false)),
   ("numeric", (PyType.pyFloat, false)),
   ("real", (PyType.pyFloat, false)),
   ("double precision", (PyType.pyFloat, false)),
   ("character varying", (PyType.pyStr, false)),
   ("varchar", (PyType.pyStr, false)),
   ("text", (PyType.pyStr, false)),
   ("boolean", (PyType.pyBool, false)),
   ("timestamp", (PyType.pyDatetime, false)),
   ("timestamp with time zone", (PyType.pyDatetime, false)),
   ("date", (PyType.pyDatetime, false)),
   ("json", (PyType.pyDict, false)),
   ("jsonb", (PyType.pyDict, false)),
   ("uuid", (PyType.pyStr, false))]

/-- map_postgres_type_to_python (src/src/db/introspection.py): lower-cases
the SQL type name, looks it up in type_mapping, and falls back to
(Any, True) for unmapped names — `type_mapping.get(type_name.lower(),
(Any, True))`. A total function: no I/O, no failure path. -/
def map_postgres_type_to_python (type_name : String) : PyType × Bool :=
  match type_mapping.lookup (strLower type_name) with
  | some v => v
  | none => (PyType.pyAny, true)


/-- PHState is the scanner state for reading positional placeholders out of
SQL text: outside any placeholder, right after a dollar sign, or inside the
digit run of a placeholder carrying the value read so far. -/
inductive PHState where
  | plain
  | dollar
  | num (v : Nat)

/-- scanPHAux runs the placeholder scanner over the text, emitting each
completed placeholder index in order of occurrence. -/
def scanPHAux : PHState → List Char → List Nat
  | st, [] =>
    match st with
    | PHState.num v => [v]
    | _ => []
  | st, c :: cs =>
    match st with
    | PHState.plain =>
      if c = '$' then scanPHAux PHState.dollar cs else scanPHAux PHState.plain cs
    | PHState.dollar =>
      if c.isDigit then scanPHAux (PHState.num (c.toNat - 48)) cs
      else if c = '$' then scanPHAux PHState.dollar cs
      else scanPHAux PHState.plain cs
    | PHState.num v =>
      if c.isDigit then scanPHAux (PHState.num (10 * v + (c.toNat - 48))) cs
      else if c = '$' then v :: scanPHAux PHState.dollar cs
      else v :: scanPHAux PHState.plain cs

/-- scanPH lists the indices of the positional placeholders ($1, $2, ...)
occurring in a piece of SQL text, in order of occurrence. -/
def scanPH (cs : List Char) : List Nat := scanPHAux PHState.plain cs

/-- digitsToNat reads a run of decimal digit characters as a number. -/
def digitsToNat (ds : List Char) : Nat :=
  ds.foldl (fun a c => 10 * a + (c.toNat - 48)) 0

/-- noDollar holds when the text contains no dollar character, hence
splicing it into SQL text can introduce no placeholder. -/
def noDollar (cs : List Char) : Bool := cs.all (fun c => c != '$')

/-- headNonDigit holds when the text does not start with a decimal digit,
so splicing it after a placeholder cannot extend the placeholder's index. -/
def headNonDigit : List Char → Bool
  | [] => true
  | c :: _ => !c.isDigit

/-- ChainCall names the fluent builder calls that extend a seeded
SQLBuilder (builder.py). -/
inductive ChainCall where
  | whereCall (cond : String)
  | andWhereCall (cond : String)
  | orWhereCall (cond : String)
  | orderByCall (column direction : String)
  | limitCall (n : Int)
  | offsetCall (n : Int)
  | returningCall (cols : String)

/-- runChain dispatches one fluent call on a builder. -/
def runChain (b : SQLBuilder) : ChainCall → SQLBuilder
  | ChainCall.whereCall c => b.where_ c
  | ChainCall.andWhereCall c => b.and_where c
  | ChainCall.orWhereCall c => b.or_where c
  | ChainCall.orderByCall col dir => b.order_by col dir
  | ChainCall.limitCall n => b.limit n
  | ChainCall.offsetCall n => b.offset n
  | ChainCall.returningCall cols => b.returning cols

/-- ChainCall.dollarFree: the caller-supplied strings of the call carry no
dollar character (the direction argument needs no proviso, since order_by
coerces it to a literal). -/
def ChainCall.dollarFree : ChainCall → Bool
  | ChainCall.whereCall c => noDollar c.data
  | ChainCall.andWhereCall c => noDollar c.data
  | ChainCall.orWhereCall c => noDollar c.data
  | ChainCall.orderByCall col _ => noDollar col.data
  | ChainCall.limitCall _ => true
  | ChainCall.offsetCall _ => true
  | ChainCall.returningCall cols => noDollar cols.data

/-- SeedCall names the four seeding classmethods of SQLBuilder. -/
inductive SeedCall where
  | selectSeed (table : String)
  | insertSeed (table : String) (data : List (String × Value))
  | updateSeed (table : String) (data : List (String × Value))
  | deleteSeed (table : String)

/-- runSeed dispatches one seeding classmethod (insert and update raise on
an empty field map, hence the Except). -/
def runSeed : SeedCall → Except String SQLBuilder
  | SeedCall.selectSeed t => Except.ok (SQLBuilder.select t)
  | SeedCall.insertSeed t d => SQLBuilder.insert t d
  | SeedCall.updateSeed t d => SQLBuilder.update t d
  | SeedCall.deleteSeed t => Except.ok (SQLBuilder.delete t)

/-- SeedCall.dollarFree: the table name and the field names carry no dollar
character. -/
def SeedCall.dollarFree : SeedCall → Bool
  | SeedCall.selectSeed t => noDollar t.data
  | SeedCall.insertSeed t d =>
      noDollar t.data && (d.map Prod.fst).all (fun k => noDollar k.data)
  | SeedCall.updateSeed t d =>
      noDollar t.data && (d.map Prod.fst).all (fun k => noDollar k.data)
  | SeedCall.deleteSeed t => noDollar t.data

/-- runCalls runs a seed followed by a sequence of fluent calls. -/
def runCalls (s : SeedCall) (cs : List ChainCall) : Except String SQLBuilder :=
  (runSeed s).map (fun b => cs.foldl runChain b)


/-- strStartsWith embeds Python's str.startswith. -/
def strStartsWith (s pre : String) : Bool := pre.data.isPrefixOf s.data

/-- strEndsWith embeds Python's str.endswith. -/
def strEndsWith (s suf : String) : Bool := suf.data.isSuffixOf s.data

/-- strDropLast embeds Python's s[:-1]. -/
def strDropLast (s : String) : String := String.mk s.data.dropLast

/-- Value.isStructured embeds Python's isinstance(value, (dict, list)). -/
def Value.isStructured : Value → Bool
  | Value.varr _ => true
  | Value.vobj _ => true
  | _ => false

/-- Modelled from the spec: the statement-builder instance that
src/src/db/queries/executor.py drives through query_parts, _add_param,
SELECT, FROM, WHERE, LIMIT, OFFSET, INSERT_INTO, UPDATE and RETURNING.
This builder is code of the repository missing from the sources — the
executor imports SQLBuilder from builder.py but calls methods builder.py
does not define. It is modelled from the spec's Statement Builder contract:
"Every value-bearing clause allocates its placeholder by appending to the
parameter list and returning the placeholder text", a fluent accumulator of
clause fragments producing (text, params) on build(); build() joins the
accumulated fragments with single blanks; LIMIT and OFFSET render their
integer literally, following the statement shapes the spec gives for
getByID ("SELECT * FROM table WHERE pk = $1 LIMIT 1") and list
("LIMIT size OFFSET (page-1)*size"). -/
structure SQLBuilderM where
  query_parts : List String
  params : List Value

/-- Modelled from the spec: the fresh builder (empty fragments and
parameter list) the executor constructs per call. -/
def SQLBuilderM.empty : SQLBuilderM := { query_parts := [], params := [] }

/-- Modelled from the spec: _add_param appends the value to the parameter
list and returns the placeholder text carrying the next index. -/
def SQLBuilderM._add_param (b : SQLBuilderM) (v : Value) : String × SQLBuilderM :=
  ("$" ++ Nat.repr (b.params.length + 1), { b with params := b.params ++ [v] })

/-- Modelled from the spec: SELECT appends the fragment "SELECT *". -/
def SQLBuilderM.SELECT (b : SQLBuilderM) : SQLBuilderM :=
  { b with query_parts := b.query_parts ++ ["SELECT *"] }

/-- Modelled from the spec: FROM appends the fragment "FROM {table}". -/
def SQLBuilderM.FROM (b : SQLBuilderM) (table : String) : SQLBuilderM :=
  { b with query_parts := b.query_parts ++ ["FROM " ++ table] }

/-- Modelled from the spec: WHERE appends the fragment "WHERE {cond}". -/
def SQLBuilderM.WHERE (b : SQLBuilderM) (cond : String) : SQLBuilderM :=
  { b with query_parts := b.query_parts ++ ["WHERE " ++ cond] }

/-- Modelled from the spec: LIMIT appends the fragment "LIMIT {n}". -/
def SQLBuilderM.LIMIT (b : SQLBuilderM) (n : Int) : SQLBuilderM :=
  { b with query_parts := b.query_parts ++ ["LIMIT " ++ Int.repr n] }

/-- Modelled from the spec: OFFSET appends the fragment "OFFSET {n}". -/
def SQLBuilderM.OFFSET (b : SQLBuilderM) (n : Int) : SQLBuilderM :=
  { b with query_parts := b.query_parts ++ ["OFFSET " ++ Int.repr n] }

/-- Modelled from the spec: INSERT_INTO seeds the INSERT fragment,
allocating one placeholder per field value in order. -/
def SQLBuilderM.INSERT_INTO (b : SQLBuilderM) (table : String)
    (data : List (String × Value)) : SQLBuilderM :=
  let cols := joinSep ", " (data.map Prod.fst)
  let phs := joinSep ", "
    ((List.range data.length).map (fun i => "$" ++ Nat.repr (b.params.length + i + 1)))
  { b with
    query_parts := b.query_parts ++
      ["INSERT INTO " ++ table ++ " (" ++ cols ++ ") VALUES (" ++ phs ++ ")"]
    params := b.params ++ data.map Prod.snd }

/-- Modelled from the spec: UPDATE seeds the UPDATE fragment with one SET
assignment per field, allocating one placeholder per field value in order. -/
def SQLBuilderM.UPDATE (b : SQLBuilderM) (table : String)
    (data : List (String × Value)) : SQLBuilderM :=
  let sets := joinSep ", "
    (data.enum.map (fun ikv => ikv.2.1 ++ " = $" ++ Nat.repr (b.params.length + ikv.1 + 1)))
  { b with
    query_parts := b.query_parts ++ ["UPDATE " ++ table ++ " SET " ++ sets]
    params := b.params ++ data.map Prod.snd }

/-- Modelled from the spec: RETURNING appends the fragment "RETURNING *". -/
def SQLBuilderM.RETURNING (b : SQLBuilderM) : SQLBuilderM :=
  { b with query_parts := b.query_parts ++ ["RETURNING *"] }

/-- Modelled from the spec: build joins the accumulated fragments with
single blanks and returns them with the parameter list. -/
def SQLBuilderM.build (b : SQLBuilderM) : String × List Value :=
  (joinSep " " b.query_parts, b.params)

/-- pk_field: the primary-key field-name heuristic of executor.py — strip a
trailing "s" from the table name and append "_id". -/
def pk_field (table_name : String) : String :=
  if strEndsWith table_name "s" then strDropLast table_name ++ "_id"
  else table_name ++ "_id"

/-- The model-to-table mapping TABLE_NAME_MAP of executor.py. -/
def TABLE_NAME_MAP : List (String × String) :=
  [("User", "users"), ("Recording", "recordings"),
   ("EventLog", "event_log"), ("Algo", "algos")]

namespace QueryExecutor

/-- QueryExecutor._process_data_for_db: serialize dict and list values to
their JSON text (the json.dumps collaborator is the dumps argument), pass
everything else through. -/
def _process_data_for_db (dumps : Value → String)
    (data : List (String × Value)) : List (String × Value) :=
  data.map (fun kv =>
    if kv.2.isStructured then (kv.1, Value.vstr (dumps kv.2)) else kv)

/-- The per-value JSON decode step of the executor's read paths: a string
value is parsed by the json.loads collaborator (the parse argument) and
replaced only when parsing succeeds with a dict or list; a parse failure
keeps the original string; non-strings pass through. -/
def decode_json_value (parse : String → Option Value) : Value → Value
  | Value.vstr s =>
    match parse s with
    | some v => if v.isStructured then v else Value.vstr s
    | none => Value.vstr s
  | v => v

/-- The row-decoding loop of the executor's read paths, applied to every
column of a fetched row. -/
def decode_row (parse : String → Option Value)
    (row : List (String × Value)) : List (String × Value) :=
  row.map (fun kv => (kv.1, decode_json_value parse kv.2))

/-- QueryExecutor.get_by_id statement construction: SELECT * FROM the table
WHERE the heuristic pk field equals the single bound parameter, LIMIT 1. -/
def get_by_id_query (table_name : String) (record_id : Value) : String × List Value :=
  let b := (SQLBuilderM.empty.SELECT).FROM table_name
  let pr := b._add_param record_id
  let b := pr.2.WHERE (pk_field table_name ++ " = " ++ pr.1)
  let b := b.LIMIT 1
  b.build

/-- QueryExecutor.get_by_id: builds the statement, fetches at most one row
through the fetchrow oracle, decodes JSON columns on a hit and returns None
on a miss; the second component is the list of issued statements. -/
def get_by_id (table_name : String) (parse : String → Option Value)
    (fetchrow : String → List Value → Option (List (String × Value)))
    (record_id : Value) :
    Option (List (String × Value)) × List (String × List Value) :=
  let qp := get_by_id_query table_name record_id
  match fetchrow qp.1 qp.2 with
  | some row => (some (decode_row parse row), [qp])
  | none => (none, [qp])

/-- QueryExecutor.delete statement construction: DELETE FROM the table
WHERE the heuristic pk field equals the single bound parameter. -/
def delete_query (table_name : String) (record_id : Value) : String × List Value :=
  let b : SQLBuilderM :=
    { SQLBuilderM.empty with query_parts := ["DELETE FROM " ++ table_name] }
  let pr := b._add_param record_id
  let b := pr.2.WHERE (pk_field table_name ++ " = " ++ pr.1)
  b.build

/-- The asyncpg status tag reported for a DELETE affecting n rows
(external collaborator behavior: conn.execute returns "DELETE {n}"). -/
def delete_status_tag (n : Nat) : String := "DELETE " ++ Nat.repr n

/-- QueryExecutor.delete: builds the statement, executes it through the
execute oracle (which reports the affected-row count), and returns
result.startswith("DELETE") and not result.endswith(" 0") applied to the
engine's status tag; the second component is the list of issued
statements — one DELETE, no SELECT. -/
def delete (table_name : String) (execute : String → List Value → Nat)
    (record_id : Value) : Bool × List (String × List Value) :=
  let qp := delete_query table_name record_id
  let result := delete_status_tag (execute qp.1 qp.2)
  ((strStartsWith result "DELETE" && !(strEndsWith result " 0")), [qp])

/-- The SET payload of QueryExecutor.update: the JSON-processed data, with
the heuristic pk field stripped when replace is false. -/
def update_payload (dumps : Value → String) (table_name : String)
    (data : List (String × Value)) (replace : Bool) : List (String × Value) :=
  let processed := _process_data_for_db dumps data
  if replace then processed
  else processed.filter (fun kv => kv.1 != pk_field table_name)

/-- QueryExecutor.update statement construction: UPDATE table SET payload
WHERE pk = $(n+1) RETURNING *. -/
def update_query (table_name : String) (payload : List (String × Value))
    (record_id : Value) : String × List Value :=
  let b := SQLBuilderM.empty.UPDATE table_name payload
  let pr := b._add_param record_id
  let b := pr.2.WHERE (pk_field table_name ++ " = " ++ pr.1)
  let b := b.RETURNING
  b.build

/-- QueryExecutor.update: degenerates to get_by_id when data is empty and
replace is false, or when the payload is empty after stripping the pk and
replace is false; otherwise builds and executes the UPDATE statement,
decoding the returned row on a hit and returning None when zero rows
matched; the second component is the list of issued statements. -/
def update (table_name : String) (parse : String → Option Value)
    (dumps : Value → String)
    (fetchrow : String → List Value → Option (List (String × Value)))
    (record_id : Value) (data : List (String × Value)) (replace : Bool) :
    Option (List (String × Value)) × List (String × List Value) :=
  if data.isEmpty && !replace then get_by_id table_name parse fetchrow record_id
  else
    let payload := update_payload dumps table_name data replace
    if payload.isEmpty && !replace then get_by_id table_name parse fetchrow record_id
    else
      let qp := update_query table_name payload record_id
      match fetchrow qp.1 qp.2 with
      | some row => (some (decode_row parse row), [qp])
      | none => (none, [qp])

end QueryExecutor


/-- ConnOp is one operation issued on a pooled asyncpg connection. -/
inductive ConnOp where
  | acquire
  | release
  | beginTx
  | commitTx
  | exec (sql : String) (params : List String)
  | fetchRows (sql : String)
deriving DecidableEq

/-- DatabaseConnection.transaction (src/src/db/connection.py): acquire a
pooled connection, open a transaction around the body, commit and release
on exit. apply_migrations never calls this helper. -/
def DatabaseConnection.transaction (body : List ConnOp) : List ConnOp :=
  [ConnOp.acquire, ConnOp.beginTx] ++ body ++ [ConnOp.commitTx, ConnOp.release]

/-- The CREATE TABLE statement of get_applied_migrations (manager.py). -/
def createMigrationsTableSql : String :=
  "CREATE TABLE IF NOT EXISTS migrations (id SERIAL PRIMARY KEY, name TEXT NOT NULL UNIQUE, applied_at TIMESTAMP WITH TIME ZONE DEFAULT NOW())"

/-- get_applied_migrations (manager.py): ensure the ledger table exists,
then fetch the applied names ordered by id. -/
def get_applied_migrations_ops : List ConnOp :=
  [ConnOp.exec createMigrationsTableSql [],
   ConnOp.fetchRows "SELECT name FROM migrations ORDER BY id"]

/-- The two statements apply_migrations issues per pending file: execute
the file's SQL, then insert its name into the ledger — two separate
conn.execute calls on the plain pooled connection. -/
def migration_file_ops (name sqlText : String) : List ConnOp :=
  [ConnOp.exec sqlText [],
   ConnOp.exec "INSERT INTO migrations (name) VALUES ($1)" [name]]

/-- insertByName inserts one (filename, sql) pair into a name-sorted list. -/
def insertByName (x : String × String) :
    List (String × String) → List (String × String)
  | [] => [x]
  | y :: ys => if decide (x.1 ≤ y.1) then x :: y :: ys else y :: insertByName x ys

/-- sortByName embeds Python's sorted() over file names (ascending). -/
def sortByName (l : List (String × String)) : List (String × String) :=
  l.foldr insertByName []

/-- apply_migrations (manager.py) as the trace of connection operations of
a run in which every statement succeeds: acquire a plain pooled connection
(db.pool.acquire, not DatabaseConnection.transaction), optionally drop the
ledger, ensure and read the ledger, then for each pending file — the .sql
files in lexical name order whose names are not yet applied — execute its
SQL and insert its name, and finally release the connection. -/
def apply_migrations_ops (clear_existing : Bool) (applied : List String)
    (files : List (String × String)) : List ConnOp :=
  let migration_files := sortByName (files.filter (fun f => strEndsWith f.1 ".sql"))
  let pending := migration_files.filter (fun f => !applied.contains f.1)
  [ConnOp.acquire] ++
    (if clear_existing then [ConnOp.exec "DROP TABLE IF EXISTS migrations" []] else []) ++
    get_applied_migrations_ops ++
    (pending.map (fun f => migration_file_ops f.1 f.2)).join ++
    [ConnOp.release]

/-- withinTx ops i j: positions i and j of the trace lie inside one
transaction — some beginTx precedes i and some commitTx follows j. -/
def withinTx (ops : List ConnOp) (i j : Nat) : Prop :=
  ∃ b c, b < i ∧ j < c ∧ ops.get? b = some ConnOp.beginTx ∧
    ops.get? c = some ConnOp.commitTx

/-- MigFault: the outcome of one migration file application — both
statements succeed, the file's SQL raises, or the ledger insert raises. -/
inductive MigFault where
  | ok
  | failExec
  | failInsert

/-- MigState: which migration effects have committed in the database and
which names the ledger records. -/
structure MigState where
  effects : List String
  ledger : List String

/-- applyOneFile: the state transition of one pending file under the
source's autocommit semantics (each conn.execute commits on its own, with
no enclosing transaction): on ok both the effect and the ledger entry
commit; when the file's SQL raises nothing commits; when the ledger insert
raises the effect has already committed while the name stays unrecorded.
The boolean reports whether the run continues. -/
def applyOneFile (st : MigState) (name : String) (f : MigFault) : MigState × Bool :=
  match f with
  | MigFault.ok =>
      ({ effects := st.effects ++ [name], ledger := st.ledger ++ [name] }, true)
  | MigFault.failExec => (st, false)
  | MigFault.failInsert =>
      ({ st with effects := st.effects ++ [name] }, false)

/-- runPending: apply the pending names in order, halting at the first
failure — the exception propagates and later files are not attempted. -/
def runPending (st : MigState) : List String → (String → MigFault) → MigState
  | [], _ => st
  | n :: ns, faults =>
      let r := applyOneFile st n (faults n)
      if r.2 then runPending r.1 ns faults else r.1

/-- C3 counterexample: `limit 5` on a fresh SELECT formats the value 5
directly into the SQL text and leaves the parameter list empty, so the
claim that limit allocates a positional placeholder and appends the value
to the parameter list is false at this input. -/
theorem C3_counterexample :
    ((SQLBuilder.select "t").limit 5).build = ("SELECT * FROM t LIMIT 5", []) ∧
    ¬ ((SQLBuilder.select "t").limit 5).build.2.length = 1 := by
  exact ⟨rfl, by decide⟩

/-- C3 (amended): limit and offset format the integer value directly into
the SQL text and append nothing to the parameter list; the insert and
update seeds are the value-bearing clauses whose values travel only through
the parameter list — their SQL text depends on the field names alone, not
on the bound values. -/
theorem C3_limit_offset_inline_values :
    ∀ (b : SQLBuilder) (n m : Int),
      (b.limit n).sql = b.sql ++ " LIMIT " ++ Int.repr n ∧
      (b.limit n).params = b.params ∧
      (b.offset m).sql = b.sql ++ " OFFSET " ++ Int.repr m ∧
      (b.offset m).params = b.params ∧
      (∀ (table : String) (data data' : List (String × Value)),
        data.map Prod.fst = data'.map Prod.fst →
          (SQLBuilder.insert table data).map SQLBuilder.sql =
            (SQLBuilder.insert table data').map SQLBuilder.sql ∧
          (SQLBuilder.update table data).map SQLBuilder.sql =
            (SQLBuilder.update table data').map SQLBuilder.sql) := by
  intro b n m
  refine ⟨rfl, rfl, rfl, rfl, ?_⟩
  intro table data data' hkeys
  have hlen : data.length = data'.length := by
    have := congrArg List.length hkeys
    simpa using this
  have hempty : data.isEmpty = data'.isEmpty := by
    cases data <;> cases data' <;> simp_all
  constructor
  · simp only [SQLBuilder.insert, hkeys, hlen, hempty]
    cases data'.isEmpty <;> simp [Except.map]
  · simp only [SQLBuilder.update, hkeys, hlen, hempty]
    cases data'.isEmpty <;> simp [Except.map]

/-- C3 witness: the amended statement applied at a concrete builder, concrete
limit and offset values, and two concrete field maps sharing their keys. -/
theorem C3_limit_offset_inline_values_witness :
    ((SQLBuilder.select "t").limit 7).sql = "SELECT * FROM t LIMIT 7" ∧
    (SQLBuilder.insert "t" [("a", Value.vint 1)]).map SQLBuilder.sql =
      (SQLBuilder.insert "t" [("a", Value.vint 2)]).map SQLBuilder.sql := by
  have h := C3_limit_offset_inline_values (SQLBuilder.select "t") 7 0
  refine ⟨h.1, (h.2.2.2.2 "t" [("a", Value.vint 1)] [("a", Value.vint 2)] rfl).1⟩

/-- C10: order_by is total, appends no parameter, leaves the WHERE flag
unchanged, appends ` ORDER BY {column} DESC` when the upper-cased direction
is DESC, ` ORDER BY {column} ASC` when it is ASC, and coerces every other
direction to ASC rather than embedding the supplied text. -/
theorem C10_order_by_coerces_direction :
    ∀ (b : SQLBuilder) (column direction : String),
      (b.order_by column direction).params = b.params ∧
      (b.order_by column direction)._has_where = b._has_where ∧
      (strUpper direction = "DESC" →
        (b.order_by column direction).sql = b.sql ++ " ORDER BY " ++ column ++ " DESC") ∧
      (strUpper direction = "ASC" →
        (b.order_by column direction).sql = b.sql ++ " ORDER BY " ++ column ++ " ASC") ∧
      (strUpper direction ≠ "ASC" → strUpper direction ≠ "DESC" →
        (b.order_by column direction).sql = b.sql ++ " ORDER BY " ++ column ++ " ASC") := by
  intro b column direction
  refine ⟨rfl, rfl, ?_, ?_, ?_⟩
  · intro h
    simp [SQLBuilder.order_by, h, String.append_assoc]
  · intro h
    simp [SQLBuilder.order_by, h, String.append_assoc]
  · intro h1 h2
    simp [SQLBuilder.order_by, h1, h2, String.append_assoc]

/-- C10 witness: order_by applied with the invalid direction "up; DROP"
coerces to ASC, and with "desc" produces DESC. -/
theorem C10_order_by_coerces_direction_witness :
    ((SQLBuilder.select "t").order_by "c" "up; DROP").sql =
      "SELECT * FROM t ORDER BY c ASC" ∧
    ((SQLBuilder.select "t").order_by "c" "desc").sql =
      "SELECT * FROM t ORDER BY c DESC" := by
  constructor
  · exact (C10_order_by_coerces_direction (SQLBuilder.select "t") "c" "up; DROP").2.2.2.2
      (by decide) (by decide)
  · exact (C10_order_by_coerces_direction (SQLBuilder.select "t") "c" "desc").2.2.1
      (by decide)

/-- A successful association-list lookup returns one of the stored values. -/
theorem lookup_mem_snd {α β : Type} [BEq α] :
    ∀ (l : List (α × β)) (k : α) (v : β),
      l.lookup k = some v → v ∈ l.map Prod.snd := by
  intro l
  induction l with
  | nil => intro k v h; simp [List.lookup] at h
  | cons hd tl ih =>
    obtain ⟨a, b⟩ := hd
    intro k v h
    simp only [List.lookup] at h
    split at h
    · injection h with h
      simp [h]
    · simp [ih k v h]

/-- Every value stored in type_mapping carries the forced-optional flag
false. -/
theorem type_mapping_values_not_optional :
    ∀ v ∈ type_mapping.map Prod.snd, v.2 = false := by
  decide

/-- C9: the type mapper is total and pure by construction; it lower-cases
the name before lookup; every name found in the mapping table yields that
table's concrete pair, whose forced-optional flag is false; every unmapped
name yields the opaque value with forced-optional true. -/
theorem C9_type_mapper_total :
    ∀ type_name : String,
      (∀ v, type_mapping.lookup (strLower type_name) = some v →
        map_postgres_type_to_python type_name = v ∧ v.2 = false) ∧
      (type_mapping.lookup (strLower type_name) = none →
        map_postgres_type_to_python type_name = (PyType.pyAny, true)) := by
  intro type_name
  constructor
  · intro v hv
    refine ⟨?_, type_mapping_values_not_optional v (lookup_mem_snd type_mapping _ v hv)⟩
    simp [map_postgres_type_to_python, hv]
  · intro hnone
    simp [map_postgres_type_to_python, hnone]

/-- C9 witness: the mapper at the mixed-case mapped name "INTEGER" and at
the unmapped name "cidr". -/
theorem C9_type_mapper_total_witness :
    map_postgres_type_to_python "INTEGER" = (PyType.pyInt, false) ∧
    map_postgres_type_to_python "cidr" = (PyType.pyAny, true) := by
  constructor
  · exact ((C9_type_mapper_total "INTEGER").1 (PyType.pyInt, false) (by decide)).1
  · exact (C9_type_mapper_total "cidr").2 (by decide)

/-- Splicing text that starts with a non-digit after arbitrary text scans to
the concatenation of the two scans, from any scanner state. -/
theorem scanPHAux_append (ys : List Char) (hy : headNonDigit ys = true) :
    ∀ (xs : List Char) (st : PHState),
      scanPHAux st (xs ++ ys) = scanPHAux st xs ++ scanPHAux PHState.plain ys := by
  intro xs
  induction xs with
  | nil =>
    intro st
    cases st with
    | plain => simp [scanPHAux]
    | dollar =>
      cases ys with
      | nil => simp [scanPHAux]
      | cons c cs =>
        have hcd : c.isDigit = false := by simpa [headNonDigit] using hy
        by_cases hc : c = '$' <;> simp [scanPHAux, hcd, hc]
    | num v =>
      cases ys with
      | nil => simp [scanPHAux]
      | cons c cs =>
        have hcd : c.isDigit = false := by simpa [headNonDigit] using hy
        by_cases hc : c = '$' <;> simp [scanPHAux, hcd, hc]
  | cons x xs ih =>
    intro st
    cases st with
    | plain => by_cases hx : x = '$' <;> simp [scanPHAux, hx, ih]
    | dollar =>
      by_cases hd : x.isDigit <;> by_cases hx : x = '$' <;>
        simp [scanPHAux, hd, hx, ih]
    | num v =>
      by_cases hd : x.isDigit <;> by_cases hx : x = '$' <;>
        simp [scanPHAux, hd, hx, ih]

/-- Dollar-free text before arbitrary text is skipped by the scanner. -/
theorem scanPHAux_skip (ys : List Char) :
    ∀ xs : List Char, noDollar xs = true →
      scanPHAux PHState.plain (xs ++ ys) = scanPHAux PHState.plain ys := by
  intro xs
  induction xs with
  | nil => intro _; simp
  | cons x xs ih =>
    intro h
    simp only [noDollar, List.all_cons, Bool.and_eq_true, bne_iff_ne, ne_eq] at h
    have hx : ¬ x = '$' := by simpa using h.1
    rw [List.cons_append]
    rw [show scanPHAux PHState.plain (x :: (xs ++ ys)) =
      scanPHAux PHState.plain (xs ++ ys) from by simp [scanPHAux, hx]]
    exact ih (by simpa [noDollar] using h.2)

/-- Dollar-free text contains no placeholder. -/
theorem scanPH_noDollar (xs : List Char) (h : noDollar xs = true) : scanPH xs = [] := by
  have h2 := scanPHAux_skip [] xs h
  rw [List.append_nil] at h2
  simpa [scanPH, scanPHAux] using h2

/-- Decimal digit characters decode to their digit value. -/
theorem digitChar_val : ∀ m : Nat, m < 10 → (Nat.digitChar m).toNat - 48 = m := by decide

/-- Decimal digit characters satisfy isDigit. -/
theorem digitChar_isDigit : ∀ m : Nat, m < 10 → (Nat.digitChar m).isDigit = true := by decide

/-- A digit character is not the dollar sign. -/
theorem isDigit_ne_dollar (c : Char) (h : c.isDigit = true) : (c != '$') = true := by
  by_cases hc : c = '$'
  · subst hc; exact absurd h (by decide)
  · simpa using hc

/-- Nat.toDigitsCore prepends its digits to the accumulator. -/
theorem toDigitsCore_acc (b : Nat) :
    ∀ (fuel n : Nat) (ds : List Char),
      Nat.toDigitsCore b fuel n ds = Nat.toDigitsCore b fuel n [] ++ ds := by
  intro fuel
  induction fuel with
  | zero => intro n ds; simp [Nat.toDigitsCore]
  | succ fuel ih =>
    intro n ds
    simp only [Nat.toDigitsCore]
    by_cases h : n / b = 0
    · simp [h]
    · rw [if_neg h, if_neg h, ih (n / b) (Nat.digitChar (n % b) :: ds),
        ih (n / b) [Nat.digitChar (n % b)]]
      simp

/-- Nat.toDigitsCore in base 10 emits digit characters only. -/
theorem toDigitsCore_digits :
    ∀ (fuel n : Nat) (ds : List Char),
      (∀ c ∈ ds, c.isDigit = true) →
      ∀ c ∈ Nat.toDigitsCore 10 fuel n ds, c.isDigit = true := by
  intro fuel
  induction fuel with
  | zero => intro n ds h; simpa [Nat.toDigitsCore] using h
  | succ fuel ih =>
    intro n ds h
    have hd : (Nat.digitChar (n % 10)).isDigit = true :=
      digitChar_isDigit (n % 10) (Nat.mod_lt n (by omega))
    simp only [Nat.toDigitsCore]
    by_cases hz : n / 10 = 0
    · rw [if_pos hz]
      intro c hc
      rcases List.mem_cons.mp hc with rfl | hc
      · exact hd
      · exact h c hc
    · rw [if_neg hz]
      refine ih (n / 10) _ ?_
      intro c hc
      rcases List.mem_cons.mp hc with rfl | hc
      · exact hd
      · exact h c hc

/-- Nat.toDigitsCore with positive fuel emits at least one character. -/
theorem toDigitsCore_ne_nil : ∀ (fuel n : Nat) (ds : List Char),
    Nat.toDigitsCore 10 (fuel + 1) n ds ≠ [] := by
  intro fuel
  induction fuel with
  | zero =>
    intro n ds
    simp only [Nat.toDigitsCore]
    by_cases hz : n / 10 = 0
    · simp [hz]
    · rw [if_neg hz]; simp [Nat.toDigitsCore]
  | succ fuel ih =>
    intro n ds
    simp only [Nat.toDigitsCore]
    by_cases hz : n / 10 = 0
    · simp [hz]
    · rw [if_neg hz]; exact ih (n / 10) _

/-- digitsToNat over a snoc splits into the leading digits and the last. -/
theorem digitsToNat_append (xs : List Char) (c : Char) :
    digitsToNat (xs ++ [c]) = 10 * digitsToNat xs + (c.toNat - 48) := by
  simp [digitsToNat, List.foldl_append]

/-- Nat.toDigitsCore decodes back to the encoded number when enough fuel is
supplied. -/
theorem toDigitsCore_val :
    ∀ (fuel n : Nat), n < fuel →
      digitsToNat (Nat.toDigitsCore 10 fuel n []) = n := by
  intro fuel
  induction fuel with
  | zero => intro n h; omega
  | succ fuel ih =>
    intro n h
    simp only [Nat.toDigitsCore]
    by_cases hz : n / 10 = 0
    · rw [if_pos hz]
      have h10 : n < 10 := by omega
      have hmod : n % 10 = n := Nat.mod_eq_of_lt h10
      simp only [digitsToNat, List.foldl_cons, List.foldl_nil, hmod]
      rw [digitChar_val n h10]
      omega
    · rw [if_neg hz]
      rw [toDigitsCore_acc 10 fuel (n / 10) [Nat.digitChar (n % 10)]]
      have hv : n / 10 < fuel := by omega
      rw [digitsToNat_append, ih (n / 10) hv,
        digitChar_val (n % 10) (Nat.mod_lt n (by omega))]
      omega

/-- Nat.repr unfolded to the digit-emitting core. -/
theorem repr_data (n : Nat) :
    (Nat.repr n).data = Nat.toDigitsCore 10 (n + 1) n [] := rfl

/-- The decimal rendering of a natural number consists of digits. -/
theorem repr_data_digits (n : Nat) : ∀ c ∈ (Nat.repr n).data, c.isDigit = true := by
  rw [repr_data]
  exact toDigitsCore_digits (n + 1) n [] (by simp)

/-- The decimal rendering of a natural number is nonempty. -/
theorem repr_data_ne_nil (n : Nat) : (Nat.repr n).data ≠ [] := by
  rw [repr_data]
  exact toDigitsCore_ne_nil n n []

/-- digitsToNat inverts Nat.repr. -/
theorem digitsToNat_repr (n : Nat) : digitsToNat (Nat.repr n).data = n := by
  rw [repr_data]
  exact toDigitsCore_val (n + 1) n (by omega)

/-- The decimal rendering of a natural number is dollar-free. -/
theorem noDollar_repr (n : Nat) : noDollar (Nat.repr n).data = true := by
  simp only [noDollar, List.all_eq_true]
  intro c hc
  exact isDigit_ne_dollar c (repr_data_digits n c hc)

/-- One non-dollar character is skipped by the scanner in plain state. -/
theorem scanPHAux_plain_cons (c : Char) (cs : List Char) (hc : ¬ c = '$') :
    scanPHAux PHState.plain (c :: cs) = scanPHAux PHState.plain cs := by
  simp [scanPHAux, hc]

/-- Inside a digit run, the scanner folds the remaining digits into the
accumulated value and then closes the placeholder. -/
theorem scanPHAux_num_run :
    ∀ (ds : List Char), (∀ c ∈ ds, c.isDigit = true) →
      ∀ (v : Nat) (tail : List Char), headNonDigit tail = true →
        scanPHAux (PHState.num v) (ds ++ tail) =
          ds.foldl (fun a c => 10 * a + (c.toNat - 48)) v ::
            scanPHAux PHState.plain tail := by
  intro ds
  induction ds with
  | nil =>
    intro _ v tail ht
    cases tail with
    | nil => simp [scanPHAux]
    | cons c cs =>
      have hcd : c.isDigit = false := by simpa [headNonDigit] using ht
      by_cases hc : c = '$' <;> simp [scanPHAux, hcd, hc]
  | cons d ds ih =>
    intro hall v tail ht
    have hd : d.isDigit = true := hall d (by simp)
    rw [List.cons_append]
    rw [show scanPHAux (PHState.num v) (d :: (ds ++ tail)) =
      scanPHAux (PHState.num (10 * v + (d.toNat - 48))) (ds ++ tail) from by
        simp [scanPHAux, hd]]
    rw [List.foldl_cons]
    exact ih (fun c hc => hall c (List.mem_cons_of_mem d hc)) _ tail ht

/-- A dollar sign followed by the decimal rendering of j scans to the
placeholder index j. -/
theorem scanPH_dollar_repr (j : Nat) (tail : List Char) (ht : headNonDigit tail = true) :
    scanPHAux PHState.plain ('$' :: ((Nat.repr j).data ++ tail)) =
      j :: scanPHAux PHState.plain tail := by
  rcases hds : (Nat.repr j).data with _ | ⟨d, ds⟩
  · exact absurd hds (repr_data_ne_nil j)
  · have hall : ∀ c ∈ d :: ds, c.isDigit = true := by
      rw [← hds]; exact repr_data_digits j
    have hd : d.isDigit = true := hall d (by simp)
    have hj : digitsToNat (d :: ds) = j := by
      rw [← hds]; exact digitsToNat_repr j
    have hfold : ds.foldl (fun a c => 10 * a + (c.toNat - 48)) (d.toNat - 48) = j := by
      have hseed : digitsToNat (d :: ds) =
          ds.foldl (fun a c => 10 * a + (c.toNat - 48)) (d.toNat - 48) := by
        simp [digitsToNat]
      rw [← hseed]; exact hj
    rw [List.cons_append]
    rw [show scanPHAux PHState.plain ('$' :: (d :: (ds ++ tail))) =
      scanPHAux (PHState.num (d.toNat - 48)) (ds ++ tail) from by
        simp [scanPHAux, hd]]
    rw [scanPHAux_num_run ds (fun c hc => hall c (List.mem_cons_of_mem d hc))
      (d.toNat - 48) tail ht, hfold]

/-- noDollar distributes over append. -/
theorem noDollar_append (xs ys : List Char) :
    noDollar (xs ++ ys) = (noDollar xs && noDollar ys) := by
  simp [noDollar, List.all_append]

/-- joinSep of dollar-free pieces with a dollar-free separator is
dollar-free. -/
theorem noDollar_joinSep (sep : String) (hsep : noDollar sep.data = true) :
    ∀ l : List String, (∀ x ∈ l, noDollar x.data = true) →
      noDollar (joinSep sep l).data = true := by
  intro l
  induction l with
  | nil => intro _; simp [joinSep, noDollar]
  | cons x l ih =>
    intro h
    cases l with
    | nil => simpa [joinSep] using h x (by simp)
    | cons y l2 =>
      have hx : noDollar x.data = true := h x (by simp)
      have hrest : noDollar (joinSep sep (y :: l2)).data = true :=
        ih (fun z hz => h z (List.mem_cons_of_mem x hz))
      simp [joinSep, String.data_append, noDollar_append, hx, hsep, hrest]

/-- headNonDigit is decided by the first piece when it is nonempty. -/
theorem headNonDigit_append_of_ne_nil (xs ys : List Char)
    (h : headNonDigit xs = true) (hne : xs ≠ []) :
    headNonDigit (xs ++ ys) = true := by
  cases xs with
  | nil => exact absurd rfl hne
  | cons c cs => simpa [headNonDigit] using h

/-- The scanner in plain state yields nothing on dollar-free text. -/
theorem scanPHAux_plain_noDollar (xs : List Char) (h : noDollar xs = true) :
    scanPHAux PHState.plain xs = [] :=
  scanPH_noDollar xs h

/-- noDollar unfolded over a cons cell. -/
theorem noDollar_cons (c : Char) (cs : List Char) :
    noDollar (c :: cs) = ((c != '$') && noDollar cs) := by
  simp [noDollar]

/-- The scan of a comma-joined list of bare placeholders followed by a
dollar-free non-digit-leading tail is exactly the list of indices. -/
theorem scanPH_placeholder_list :
    ∀ (js : List Nat) (tail : List Char),
      noDollar tail = true → headNonDigit tail = true →
      scanPHAux PHState.plain
          ((joinSep ", " (js.map (fun j => "$" ++ Nat.repr j))).data ++ tail) = js := by
  intro js
  induction js with
  | nil =>
    intro tail h1 _
    have hnil : (joinSep ", " (([] : List Nat).map (fun j => "$" ++ Nat.repr j))).data = [] := rfl
    rw [hnil, List.nil_append]
    exact scanPHAux_plain_noDollar tail h1
  | cons j js ih =>
    intro tail h1 h2
    cases js with
    | nil =>
      simp only [List.map_cons, List.map_nil, joinSep, String.data_append,
        List.append_assoc, List.cons_append, List.nil_append]
      rw [scanPH_dollar_repr j tail h2, scanPHAux_plain_noDollar tail h1]
    | cons j2 js2 =>
      simp only [List.map_cons, joinSep, String.data_append,
        List.append_assoc, List.cons_append, List.nil_append]
      have hside : headNonDigit (',' :: ' ' ::
          ((joinSep ", " (("$" ++ Nat.repr j2) ::
            js2.map (fun j => "$" ++ Nat.repr j))).data ++ tail)) = true := by
        simp [headNonDigit]
      rw [scanPH_dollar_repr j _ hside]
      rw [scanPHAux_plain_cons ',' _ (by decide), scanPHAux_plain_cons ' ' _ (by decide)]
      have := ih tail h1 h2
      simp only [List.map_cons, joinSep] at this
      exact congrArg (j :: ·) this

/-- The scan of a comma-joined list of SET assignments (dollar-free column
names paired with placeholder indices) followed by a dollar-free
non-digit-leading tail is exactly the index list. -/
theorem scanPH_assign_chunks :
    ∀ (ps : List (String × Nat)) (tail : List Char),
      (∀ p ∈ ps, noDollar p.1.data = true) →
      noDollar tail = true → headNonDigit tail = true →
      scanPHAux PHState.plain
          ((joinSep ", " (ps.map
              (fun kj => kj.1 ++ " = $" ++ Nat.repr kj.2))).data ++ tail) =
        ps.map Prod.snd := by
  intro ps
  induction ps with
  | nil =>
    intro tail _ h1 _
    have hnil : (joinSep ", " (([] : List (String × Nat)).map
        (fun kj => kj.1 ++ " = $" ++ Nat.repr kj.2))).data = [] := rfl
    rw [hnil, List.nil_append]
    exact scanPHAux_plain_noDollar tail h1
  | cons p ps ih =>
    intro tail hks h1 h2
    obtain ⟨k, j⟩ := p
    have hk : noDollar k.data = true := hks (k, j) (by simp)
    have hchunk : ∀ rest : List Char, headNonDigit rest = true →
        scanPHAux PHState.plain
            (k.data ++ (' ' :: '=' :: ' ' :: '$' :: ((Nat.repr j).data ++ rest))) =
          j :: scanPHAux PHState.plain rest := by
      intro rest hr2
      rw [scanPHAux_skip _ k.data hk]
      rw [scanPHAux_plain_cons ' ' _ (by decide),
        scanPHAux_plain_cons '=' _ (by decide),
        scanPHAux_plain_cons ' ' _ (by decide)]
      exact scanPH_dollar_repr j rest hr2
    cases ps with
    | nil =>
      simp only [List.map_cons, List.map_nil, joinSep, String.data_append,
        List.append_assoc, List.cons_append, List.nil_append]
      rw [hchunk tail h2, scanPHAux_plain_noDollar tail h1]
    | cons p2 ps2 =>
      simp only [List.map_cons, joinSep, String.data_append,
        List.append_assoc, List.cons_append, List.nil_append]
      rw [hchunk (',' :: ' ' ::
          ((joinSep ", " ((p2.1 ++ " = $" ++ Nat.repr p2.2) ::
            ps2.map (fun kj => kj.1 ++ " = $" ++ Nat.repr kj.2))).data ++ tail))
        (by simp [headNonDigit])]
      rw [scanPHAux_plain_cons ',' _ (by decide), scanPHAux_plain_cons ' ' _ (by decide)]
      have := ih tail (fun q hq => hks q (List.mem_cons_of_mem (k, j) hq)) h1 h2
      simp only [List.map_cons, joinSep] at this
      exact congrArg (j :: ·) this

/-- noDollar over a String append. -/
theorem noDollar_str_append (x y : String) (hx : noDollar x.data = true)
    (hy : noDollar y.data = true) : noDollar (x ++ y).data = true := by
  rw [String.data_append, noDollar_append, Bool.and_eq_true]
  exact ⟨hx, hy⟩

/-- headNonDigit over a String append whose first part is nonempty. -/
theorem headNonDigit_str_append (x y : String) (hx : headNonDigit x.data = true)
    (hne : x.data ≠ []) : headNonDigit (x ++ y).data = true := by
  rw [String.data_append]
  exact headNonDigit_append_of_ne_nil x.data y.data hx hne

/-- The insert placeholders $1..$n expressed over range' 1 n. -/
theorem range_ph_eq_range' (n : Nat) :
    (List.range n).map (fun i => "$" ++ Nat.repr (i + 1)) =
      (List.range' 1 n).map (fun j => "$" ++ Nat.repr j) := by
  have aux : ∀ (n s : Nat),
      (List.range' s n).map (fun i => "$" ++ Nat.repr (i + 1)) =
        (List.range' (s + 1) n).map (fun j => "$" ++ Nat.repr j) := by
    intro n
    induction n with
    | zero => intro s; simp
    | succ n ih =>
      intro s
      rw [List.range'_succ, List.range'_succ, List.map_cons, List.map_cons, ih (s + 1)]
  rw [List.range_eq_range']
  exact aux n 0

/-- The update SET chunks built from enumerate expressed as a zip with
range' 1 n. -/
theorem enum_assign_eq_zip (ks : List String) :
    ks.enum.map (fun ik => ik.2 ++ " = $" ++ Nat.repr (ik.1 + 1)) =
      (ks.zip (List.range' 1 ks.length)).map
        (fun kj => kj.1 ++ " = $" ++ Nat.repr kj.2) := by
  have aux : ∀ (ks : List String) (s : Nat),
      ((List.range' s ks.length).zip ks).map
          (fun ik => ik.2 ++ " = $" ++ Nat.repr (ik.1 + 1)) =
        (ks.zip (List.range' (s + 1) ks.length)).map
          (fun kj => kj.1 ++ " = $" ++ Nat.repr kj.2) := by
    intro ks
    induction ks with
    | nil => intro s; simp
    | cons k ks ih =>
      intro s
      simp only [List.length_cons, List.range'_succ, List.zip_cons_cons, List.map_cons]
      rw [ih (s + 1)]
  rw [List.enum_eq_zip_range, List.range_eq_range']
  exact aux ks 0

/-- The seeded insert statement satisfies the placeholder invariant:
its text scans to the indices 1..n where n is the parameter count. -/
theorem insert_inv (table : String) (data : List (String × Value)) (b : SQLBuilder)
    (hT : noDollar table.data = true)
    (hK : ∀ k ∈ data.map Prod.fst, noDollar k.data = true)
    (hok : SQLBuilder.insert table data = Except.ok b) :
    scanPH b.sql.data = List.range' 1 b.params.length := by
  unfold SQLBuilder.insert at hok
  by_cases hE : data.isEmpty
  · rw [if_pos hE] at hok
    exact absurd hok (by simp)
  · rw [if_neg hE] at hok
    injection hok with hok
    subst hok
    show scanPH ("INSERT INTO " ++ table ++ " (" ++
        joinSep ", " (data.map Prod.fst) ++ ") VALUES (" ++
        joinSep ", " ((List.range data.length).map (fun i => "$" ++ Nat.repr (i + 1))) ++
        ") RETURNING *").data = List.range' 1 (data.map Prod.snd).length
    rw [List.length_map, range_ph_eq_range' data.length]
    have hcols : noDollar (joinSep ", " (data.map Prod.fst)).data = true :=
      noDollar_joinSep ", " (by decide) _ hK
    have hfront : noDollar ("INSERT INTO " ++ table ++ " (" ++
        joinSep ", " (data.map Prod.fst) ++ ") VALUES (").data = true :=
      noDollar_str_append _ _ (noDollar_str_append _ _ (noDollar_str_append _ _
        (noDollar_str_append _ _ (by decide) hT) (by decide)) hcols) (by decide)
    rw [String.append_assoc ("INSERT INTO " ++ table ++ " (" ++
        joinSep ", " (data.map Prod.fst) ++ ") VALUES (") _ ") RETURNING *"]
    simp only [scanPH]
    rw [String.data_append, scanPHAux_skip _ _ hfront, String.data_append]
    exact scanPH_placeholder_list (List.range' 1 data.length) (") RETURNING *").data
      (by decide) (by decide)

/-- The seeded update statement satisfies the placeholder invariant:
its text scans to the indices 1..n where n is the parameter count. -/
theorem update_inv (table : String) (data : List (String × Value)) (b : SQLBuilder)
    (hT : noDollar table.data = true)
    (hK : ∀ k ∈ data.map Prod.fst, noDollar k.data = true)
    (hok : SQLBuilder.update table data = Except.ok b) :
    scanPH b.sql.data = List.range' 1 b.params.length := by
  unfold SQLBuilder.update at hok
  by_cases hE : data.isEmpty
  · rw [if_pos hE] at hok
    exact absurd hok (by simp)
  · rw [if_neg hE] at hok
    injection hok with hok
    subst hok
    show scanPH ("UPDATE " ++ table ++ " SET " ++
        joinSep ", " ((data.map Prod.fst).enum.map
          (fun ik => ik.2 ++ " = $" ++ Nat.repr (ik.1 + 1)))).data =
      List.range' 1 (data.map Prod.snd).length
    rw [List.length_map, enum_assign_eq_zip (data.map Prod.fst)]
    have hfront : noDollar ("UPDATE " ++ table ++ " SET ").data = true :=
      noDollar_str_append _ _ (noDollar_str_append _ _ (by decide) hT) (by decide)
    simp only [scanPH]
    rw [String.data_append, scanPHAux_skip _ _ hfront]
    rw [← List.append_nil ((joinSep ", "
        (((data.map Prod.fst).zip (List.range' 1 (data.map Prod.fst).length)).map
          (fun kj => kj.1 ++ " = $" ++ Nat.repr kj.2))).data)]
    rw [scanPH_assign_chunks _ [] ?hps (by decide) (by decide)]
    case hps =>
      intro p hp
      exact hK p.1 (List.of_mem_zip hp).1
    rw [List.map_snd_zip _ _ (le_of_eq (List.length_range' _ _ _))]
    rw [List.length_map]

/-- Appending a dollar-free fragment that starts with a non-digit leaves
the placeholder scan of the SQL text unchanged. -/
theorem scanPH_append_frag (s F : String) (hF : noDollar F.data = true)
    (hh : headNonDigit F.data = true) :
    scanPH (s ++ F).data = scanPH s.data := by
  simp only [scanPH]
  rw [String.data_append, scanPHAux_append F.data hh s.data PHState.plain,
    scanPHAux_plain_noDollar F.data hF, List.append_nil]

/-- Int.repr produces a dollar-free rendering. -/
theorem noDollar_int_repr (n : Int) : noDollar (Int.repr n).data = true := by
  cases n with
  | ofNat m => exact noDollar_repr m
  | negSucc m =>
    show noDollar ("-" ++ Nat.repr (m + 1)).data = true
    exact noDollar_str_append _ _ (by decide) (noDollar_repr (m + 1))

/-- Every dollar-free fluent call preserves the scan of the SQL text and
the parameter list. -/
theorem runChain_inv (b : SQLBuilder) (c : ChainCall) (hc : c.dollarFree = true) :
    scanPH (runChain b c).sql.data = scanPH b.sql.data ∧
      (runChain b c).params = b.params := by
  cases c with
  | whereCall cond =>
    have hcond : noDollar cond.data = true := by simpa [ChainCall.dollarFree] using hc
    simp only [runChain, SQLBuilder.where_]
    by_cases hw : b._has_where <;> simp only [hw, if_true, if_false, Bool.false_eq_true] <;>
      refine ⟨?_, by trivial⟩ <;> rw [String.append_assoc]
    · exact scanPH_append_frag b.sql _ (noDollar_str_append _ _ (by decide) hcond)
        (headNonDigit_str_append _ _ (by decide) (by decide))
    · exact scanPH_append_frag b.sql _ (noDollar_str_append _ _ (by decide) hcond)
        (headNonDigit_str_append _ _ (by decide) (by decide))
  | andWhereCall cond =>
    have hcond : noDollar cond.data = true := by simpa [ChainCall.dollarFree] using hc
    simp only [runChain, SQLBuilder.and_where, SQLBuilder.where_]
    by_cases hw : b._has_where <;> simp only [hw, if_true, if_false, Bool.false_eq_true] <;>
      refine ⟨?_, by trivial⟩ <;> rw [String.append_assoc]
    · exact scanPH_append_frag b.sql _ (noDollar_str_append _ _ (by decide) hcond)
        (headNonDigit_str_append _ _ (by decide) (by decide))
    · exact scanPH_append_frag b.sql _ (noDollar_str_append _ _ (by decide) hcond)
        (headNonDigit_str_append _ _ (by decide) (by decide))
  | orWhereCall cond =>
    have hcond : noDollar cond.data = true := by simpa [ChainCall.dollarFree] using hc
    simp only [runChain, SQLBuilder.or_where, SQLBuilder.where_]
    by_cases hw : b._has_where <;> simp only [hw, if_true, if_false, Bool.false_eq_true] <;>
      refine ⟨?_, by trivial⟩ <;> rw [String.append_assoc]
    · exact scanPH_append_frag b.sql _ (noDollar_str_append _ _ (by decide) hcond)
        (headNonDigit_str_append _ _ (by decide) (by decide))
    · exact scanPH_append_frag b.sql _ (noDollar_str_append _ _ (by decide) hcond)
        (headNonDigit_str_append _ _ (by decide) (by decide))
  | orderByCall col dir =>
    have hcol : noDollar col.data = true := by simpa [ChainCall.dollarFree] using hc
    simp only [runChain, SQLBuilder.order_by]
    refine ⟨?_, by trivial⟩
    simp only [String.append_assoc]
    by_cases hd : strUpper dir = "ASC" ∨ strUpper dir = "DESC"
    · rw [if_pos hd]
      rcases hd with hA | hD
      · rw [hA]
        exact scanPH_append_frag b.sql _
          (noDollar_str_append _ _ (by decide)
            (noDollar_str_append _ _ hcol (noDollar_str_append _ _ (by decide) (by decide))))
          (headNonDigit_str_append _ _ (by decide) (by decide))
      · rw [hD]
        exact scanPH_append_frag b.sql _
          (noDollar_str_append _ _ (by decide)
            (noDollar_str_append _ _ hcol (noDollar_str_append _ _ (by decide) (by decide))))
          (headNonDigit_str_append _ _ (by decide) (by decide))
    · rw [if_neg hd]
      exact scanPH_append_frag b.sql _
        (noDollar_str_append _ _ (by decide)
          (noDollar_str_append _ _ hcol (noDollar_str_append _ _ (by decide) (by decide))))
        (headNonDigit_str_append _ _ (by decide) (by decide))
  | limitCall n =>
    simp only [runChain, SQLBuilder.limit]
    refine ⟨?_, by trivial⟩
    rw [String.append_assoc]
    exact scanPH_append_frag b.sql _ (noDollar_str_append _ _ (by decide) (noDollar_int_repr n))
      (headNonDigit_str_append _ _ (by decide) (by decide))
  | offsetCall n =>
    simp only [runChain, SQLBuilder.offset]
    refine ⟨?_, by trivial⟩
    rw [String.append_assoc]
    exact scanPH_append_frag b.sql _ (noDollar_str_append _ _ (by decide) (noDollar_int_repr n))
      (headNonDigit_str_append _ _ (by decide) (by decide))
  | returningCall cols =>
    have hcols : noDollar cols.data = true := by simpa [ChainCall.dollarFree] using hc
    simp only [runChain, SQLBuilder.returning]
    by_cases hr : containsSub b.sql.data " RETURNING ".data = true
    · simp only [hr, if_true]
      exact ⟨by trivial, by trivial⟩
    · simp only [hr, if_false, Bool.false_eq_true]
      refine ⟨?_, by trivial⟩
      rw [String.append_assoc]
      exact scanPH_append_frag b.sql _ (noDollar_str_append _ _ (by decide) hcols)
        (headNonDigit_str_append _ _ (by decide) (by decide))

/-- The seeded select statement satisfies the placeholder invariant. -/
theorem select_inv (table : String) (hT : noDollar table.data = true) :
    scanPH (SQLBuilder.select table).sql.data =
      List.range' 1 (SQLBuilder.select table).params.length := by
  show scanPH ("SELECT * FROM " ++ table).data = List.range' 1 (List.length [])
  rw [String.data_append]
  rw [scanPH_noDollar _ (by rw [noDollar_append, Bool.and_eq_true]; exact ⟨by decide, hT⟩)]
  simp

/-- The seeded delete statement satisfies the placeholder invariant. -/
theorem delete_inv (table : String) (hT : noDollar table.data = true) :
    scanPH (SQLBuilder.delete table).sql.data =
      List.range' 1 (SQLBuilder.delete table).params.length := by
  show scanPH ("DELETE FROM " ++ table).data = List.range' 1 (List.length [])
  rw [String.data_append]
  rw [scanPH_noDollar _ (by rw [noDollar_append, Bool.and_eq_true]; exact ⟨by decide, hT⟩)]
  simp

/-- Every successfully seeded builder satisfies the placeholder invariant
when the seed's caller-supplied strings are dollar-free. -/
theorem runSeed_inv (s : SeedCall) (b : SQLBuilder) (hs : s.dollarFree = true)
    (hb : runSeed s = Except.ok b) :
    scanPH b.sql.data = List.range' 1 b.params.length := by
  cases s with
  | selectSeed t =>
    simp only [runSeed] at hb
    injection hb with hb
    subst hb
    exact select_inv t (by simpa [SeedCall.dollarFree] using hs)
  | insertSeed t d =>
    simp only [SeedCall.dollarFree, Bool.and_eq_true, List.all_eq_true] at hs
    exact insert_inv t d b hs.1 (fun k hk => hs.2 k hk) hb
  | updateSeed t d =>
    simp only [SeedCall.dollarFree, Bool.and_eq_true, List.all_eq_true] at hs
    exact update_inv t d b hs.1 (fun k hk => hs.2 k hk) hb
  | deleteSeed t =>
    simp only [runSeed] at hb
    injection hb with hb
    subst hb
    exact delete_inv t (by simpa [SeedCall.dollarFree] using hs)

/-- Folding dollar-free fluent calls preserves the placeholder invariant. -/
theorem foldl_runChain_inv (cs : List ChainCall) :
    ∀ b : SQLBuilder, (∀ c ∈ cs, c.dollarFree = true) →
      scanPH b.sql.data = List.range' 1 b.params.length →
      scanPH (cs.foldl runChain b).sql.data =
        List.range' 1 (cs.foldl runChain b).params.length := by
  induction cs with
  | nil => intro b _ h; simpa using h
  | cons c cs ih =>
    intro b hall hb
    simp only [List.foldl_cons]
    refine ih (runChain b c) (fun c2 hc2 => hall c2 (List.mem_cons_of_mem c hc2)) ?_
    have h := runChain_inv b c (hall c (List.mem_cons_self c cs))
    rw [h.1, h.2, hb]

/-- C2 counterexample: where appends caller-supplied condition text
verbatim and adds no parameter, so selecting with condition "a = $1" yields
a text containing one distinct placeholder while the parameter list is
empty — the claimed equality fails on this call sequence. -/
theorem C2_counterexample :
    ((SQLBuilder.select "t").where_ "a = $1").build = ("SELECT * FROM t WHERE a = $1", []) ∧
    scanPH ((SQLBuilder.select "t").where_ "a = $1").build.1.data = [1] ∧
    ¬ (((SQLBuilder.select "t").where_ "a = $1").build.2.length =
        (scanPH ((SQLBuilder.select "t").where_ "a = $1").build.1.data).dedup.length) := by
  refine ⟨rfl, by decide, by decide⟩

/-- C2 (amended): for every builder call sequence in which the
caller-supplied table, field-name, condition, column and RETURNING strings
contain no dollar character, the built (text, params) pair satisfies the
invariant: the placeholder indices scanned from the text are exactly
1..len(params), strictly increasing in order of appearance, and hence the
number of distinct placeholders in the text equals len(params). The
dollar-free proviso is exactly what the counterexample forces: where/and_where/
or_where splice caller text verbatim without touching params. -/
theorem C2_amended (s : SeedCall) (cs : List ChainCall) (b : SQLBuilder)
    (hs : s.dollarFree = true)
    (hc : ∀ c ∈ cs, c.dollarFree = true)
    (hb : runCalls s cs = Except.ok b) :
    scanPH b.build.1.data = List.range' 1 b.build.2.length ∧
    b.build.2.length = (scanPH b.build.1.data).dedup.length := by
  obtain ⟨b0, hb0, hfold⟩ : ∃ b0, runSeed s = Except.ok b0 ∧ b = cs.foldl runChain b0 := by
    cases hrs : runSeed s with
    | error e => rw [runCalls, hrs] at hb; exact absurd hb (by simp [Except.map])
    | ok b0 =>
      rw [runCalls, hrs] at hb
      simp only [Except.map] at hb
      injection hb with hb
      exact ⟨b0, rfl, hb.symm⟩
  subst hfold
  have hinv := foldl_runChain_inv cs b0 hc (runSeed_inv s b0 hs hb0)
  refine ⟨hinv, ?_⟩
  show (cs.foldl runChain b0).params.length = _
  rw [show scanPH (cs.foldl runChain b0).build.1.data =
      List.range' 1 (cs.foldl runChain b0).params.length from hinv]
  rw [List.Nodup.dedup (List.nodup_range' _ _ _ Nat.one_pos), List.length_range']

/-- C2 witness: the amended invariant applied to the concrete run that
seeds an insert of two fields and chains no further calls. -/
theorem C2_amended_witness :
    scanPH (SQLBuilder.mk "INSERT INTO t (a, b) VALUES ($1, $2) RETURNING *"
        [Value.vint 1, Value.vint 2] false).build.1.data =
      List.range' 1 (SQLBuilder.mk "INSERT INTO t (a, b) VALUES ($1, $2) RETURNING *"
        [Value.vint 1, Value.vint 2] false).build.2.length ∧
    (SQLBuilder.mk "INSERT INTO t (a, b) VALUES ($1, $2) RETURNING *"
        [Value.vint 1, Value.vint 2] false).build.2.length =
      (scanPH (SQLBuilder.mk "INSERT INTO t (a, b) VALUES ($1, $2) RETURNING *"
        [Value.vint 1, Value.vint 2] false).build.1.data).dedup.length :=
  C2_amended (SeedCall.insertSeed "t" [("a", Value.vint 1), ("b", Value.vint 2)]) []
    (SQLBuilder.mk "INSERT INTO t (a, b) VALUES ($1, $2) RETURNING *"
      [Value.vint 1, Value.vint 2] false)
    (by decide) (fun c hc => absurd hc (List.not_mem_nil c)) rfl

/-- Mapping fst commutes with filtering out a key. -/
theorem map_fst_filter_key (pk : String) (l : List (String × Value)) :
    (l.filter (fun kv => kv.1 != pk)).map Prod.fst =
      (l.map Prod.fst).filter (fun k => k != pk) := by
  induction l with
  | nil => rfl
  | cons kv l ih => by_cases hp : (kv.1 != pk) = true <;> simp [List.filter_cons, hp, ih]

/-- JSON serialization of the field map preserves the key list. -/
theorem process_data_keys (dumps : Value → String) (data : List (String × Value)) :
    (QueryExecutor._process_data_for_db dumps data).map Prod.fst = data.map Prod.fst := by
  induction data with
  | nil => rfl
  | cons kv l ih =>
    by_cases h : kv.2.isStructured <;>
      simp [QueryExecutor._process_data_for_db, h, ih] <;>
      simpa [QueryExecutor._process_data_for_db] using ih

/-- C8: the executor's read-path decoding treats every column
independently, keeps the key, replaces a string value by the parsed
structure only when the JSON parse succeeds (with a dict or list), and on a
parse failure keeps the original string rather than raising — the decode
functions are total. -/
theorem C8_json_parse_recovery (parse : String → Option Value)
    (row : List (String × Value)) (i : Nat) (k : String) (v : Value)
    (h : row.get? i = some (k, v)) :
    (QueryExecutor.decode_row parse row).get? i =
      some (k, QueryExecutor.decode_json_value parse v) ∧
    (∀ s, v = Value.vstr s → parse s = none →
      QueryExecutor.decode_json_value parse v = Value.vstr s) ∧
    (∀ s u, v = Value.vstr s → parse s = some u →
      QueryExecutor.decode_json_value parse v =
        if u.isStructured then u else Value.vstr s) := by
  refine ⟨?_, ?_, ?_⟩
  · rw [QueryExecutor.decode_row]
    rw [show (List.map (fun kv => (kv.1, QueryExecutor.decode_json_value parse kv.2)) row).get? i =
      (row.get? i).map (fun kv => (kv.1, QueryExecutor.decode_json_value parse kv.2)) from
        List.get?_map _ _ _, h]
    rfl
  · intro s hv hp
    subst hv
    simp [QueryExecutor.decode_json_value, hp]
  · intro s u hv hp
    subst hv
    simp [QueryExecutor.decode_json_value, hp]

/-- C8 witness: decoding a row whose only column holds a non-JSON string
under a parser that always fails keeps the original value. -/
theorem C8_json_parse_recovery_witness :
    (QueryExecutor.decode_row (fun _ => none) [("firebase_data", Value.vstr "x")]).get? 0 =
      some ("firebase_data",
        QueryExecutor.decode_json_value (fun _ => none) (Value.vstr "x")) ∧
    QueryExecutor.decode_json_value (fun _ => none) (Value.vstr "x") = Value.vstr "x" := by
  have h := C8_json_parse_recovery (fun _ => none)
    [("firebase_data", Value.vstr "x")] 0 "firebase_data" (Value.vstr "x") rfl
  exact ⟨h.1, h.2.1 "x" rfl rfl⟩

/-- C6: update with an empty field map and replace false short-circuits to
get_by_id: same result, same issued statements (the single SELECT that
get_by_id builds), and that statement is not an UPDATE. -/
theorem C6_empty_update_degenerates (table_name : String)
    (parse : String → Option Value) (dumps : Value → String)
    (fetchrow : String → List Value → Option (List (String × Value)))
    (record_id : Value) :
    QueryExecutor.update table_name parse dumps fetchrow record_id [] false =
      QueryExecutor.get_by_id table_name parse fetchrow record_id ∧
    (QueryExecutor.update table_name parse dumps fetchrow record_id [] false).2 =
      [QueryExecutor.get_by_id_query table_name record_id] ∧
    strStartsWith (QueryExecutor.get_by_id_query table_name record_id).1 "UPDATE" = false := by
  refine ⟨rfl, ?_, ?_⟩
  · show (QueryExecutor.get_by_id table_name parse fetchrow record_id).2 = _
    simp only [QueryExecutor.get_by_id]
    rcases hf : fetchrow (QueryExecutor.get_by_id_query table_name record_id).1
        (QueryExecutor.get_by_id_query table_name record_id).2 with _ | row <;> simp [hf]
  · simp [QueryExecutor.get_by_id_query, SQLBuilderM.SELECT, SQLBuilderM.FROM,
      SQLBuilderM.WHERE, SQLBuilderM.LIMIT, SQLBuilderM._add_param, SQLBuilderM.empty,
      SQLBuilderM.build, joinSep, strStartsWith, String.data_append, List.isPrefixOf]

/-- C7: a partial update (replace false) strips the heuristic primary-key
field from the SET payload: the payload keys are exactly the supplied keys
without the pk field, the pk field is not among them, and the call issues
either the single UPDATE built from that payload or (when the payload
emptied) the get_by_id SELECT. -/
theorem C7_partial_update_strips_pk (dumps : Value → String) (table_name : String)
    (data : List (String × Value)) (record_id : Value)
    (parse : String → Option Value)
    (fetchrow : String → List Value → Option (List (String × Value)))
    (h1 : data ≠ []) (h2 : pk_field table_name ∈ data.map Prod.fst) :
    (QueryExecutor.update_payload dumps table_name data false).map Prod.fst =
      (data.map Prod.fst).filter (fun k => k != pk_field table_name) ∧
    pk_field table_name ∉
      (QueryExecutor.update_payload dumps table_name data false).map Prod.fst ∧
    ((QueryExecutor.update table_name parse dumps fetchrow record_id data false).2 =
        [QueryExecutor.update_query table_name
          (QueryExecutor.update_payload dumps table_name data false) record_id] ∨
      (QueryExecutor.update table_name parse dumps fetchrow record_id data false).2 =
        [QueryExecutor.get_by_id_query table_name record_id]) := by
  have hkeys : (QueryExecutor.update_payload dumps table_name data false).map Prod.fst =
      (data.map Prod.fst).filter (fun k => k != pk_field table_name) := by
    unfold QueryExecutor.update_payload
    rw [if_neg (by simp)]
    rw [map_fst_filter_key, process_data_keys]
  have hempty : data.isEmpty = false := by
    cases data with
    | nil => exact absurd rfl h1
    | cons kv l => rfl
  refine ⟨hkeys, ?_, ?_⟩
  · rw [hkeys]
    intro hmem
    have := (List.mem_filter.mp hmem).2
    simp at this
  · unfold QueryExecutor.update
    rw [if_neg (by simp [hempty])]
    by_cases hp : (QueryExecutor.update_payload dumps table_name data false).isEmpty
    · right
      rw [if_pos (by simp [hp])]
      show (QueryExecutor.get_by_id table_name parse fetchrow record_id).2 = _
      simp only [QueryExecutor.get_by_id]
      rcases hf : fetchrow (QueryExecutor.get_by_id_query table_name record_id).1
          (QueryExecutor.get_by_id_query table_name record_id).2 with _ | row <;> simp [hf]
    · left
      rw [if_neg (by simp [hp])]
      rcases hf : fetchrow
          (QueryExecutor.update_query table_name
            (QueryExecutor.update_payload dumps table_name data false) record_id).1
          (QueryExecutor.update_query table_name
            (QueryExecutor.update_payload dumps table_name data false) record_id).2
        with _ | row <;> simp [hf]

/-- C7 witness: the theorem at a concrete partial update of the users table
whose field map contains the pk field user_id. -/
theorem C7_partial_update_strips_pk_witness :
    pk_field "users" ∉
      (QueryExecutor.update_payload (fun _ => "") "users"
        [("user_id", Value.vstr "u1"), ("age", Value.vint 3)] false).map Prod.fst :=
  (C7_partial_update_strips_pk (fun _ => "") "users"
    [("user_id", Value.vstr "u1"), ("age", Value.vint 3)] (Value.vstr "u1")
    (fun _ => none) (fun _ _ => none)
    (List.cons_ne_nil _ _) (by decide)).2.1

/-- C4: get_by_id builds SELECT * FROM table WHERE pk = $1 LIMIT 1 with the
id as the single bound parameter; a missing row yields None (an explicit
not-found result, not an error — the embedding is total), and a matching
row yields the JSON-decoded record. -/
theorem C4_get_by_id_select (table_name : String) (record_id : Value)
    (parse : String → Option Value)
    (fetchrow : String → List Value → Option (List (String × Value))) :
    (QueryExecutor.get_by_id_query table_name record_id).1 =
      "SELECT * FROM " ++ table_name ++ " WHERE " ++ pk_field table_name ++
        " = $1 LIMIT 1" ∧
    (QueryExecutor.get_by_id_query table_name record_id).2 = [record_id] ∧
    (fetchrow (QueryExecutor.get_by_id_query table_name record_id).1
        (QueryExecutor.get_by_id_query table_name record_id).2 = none →
      (QueryExecutor.get_by_id table_name parse fetchrow record_id).1 = none) ∧
    (∀ row, fetchrow (QueryExecutor.get_by_id_query table_name record_id).1
        (QueryExecutor.get_by_id_query table_name record_id).2 = some row →
      (QueryExecutor.get_by_id table_name parse fetchrow record_id).1 =
        some (QueryExecutor.decode_row parse row)) := by
  refine ⟨?_, rfl, ?_, ?_⟩
  · apply String.ext
    simp [QueryExecutor.get_by_id_query, SQLBuilderM.SELECT, SQLBuilderM.FROM,
      SQLBuilderM.WHERE, SQLBuilderM.LIMIT, SQLBuilderM._add_param, SQLBuilderM.empty,
      SQLBuilderM.build, joinSep, String.data_append, List.append_assoc,
      show (Nat.repr 1).data = ['1'] from rfl, show (Int.repr 1).data = ['1'] from rfl]
  · intro h
    simp only [QueryExecutor.get_by_id]
    rw [h]
  · intro row h
    simp only [QueryExecutor.get_by_id]
    rw [h]

/-- C4 witness: the theorem at the users table with a fetchrow oracle that
reports no matching row — get_by_id returns None. -/
theorem C4_get_by_id_select_witness :
    (QueryExecutor.get_by_id "users" (fun _ => none) (fun _ _ => none)
      (Value.vstr "u1")).1 = none :=
  (C4_get_by_id_select "users" (Value.vstr "u1") (fun _ => none) (fun _ _ => none)).2.2.1 rfl

/-- C5: delete builds DELETE FROM table WHERE pk = $1 with the id as the
single bound parameter, issues exactly that one statement (no second
SELECT), and — the engine reporting at most one affected row for a
primary-key equality — returns the boolean derived from the status tag,
which is true exactly when one row was removed and false (not an error)
when zero rows matched. -/
theorem C5_delete_rowcount (table_name : String) (record_id : Value)
    (execute : String → List Value → Nat)
    (h : execute (QueryExecutor.delete_query table_name record_id).1
        (QueryExecutor.delete_query table_name record_id).2 ≤ 1) :
    (QueryExecutor.delete_query table_name record_id).1 =
      "DELETE FROM " ++ table_name ++ " WHERE " ++ pk_field table_name ++ " = $1" ∧
    (QueryExecutor.delete_query table_name record_id).2 = [record_id] ∧
    (QueryExecutor.delete table_name execute record_id).2 =
      [QueryExecutor.delete_query table_name record_id] ∧
    (QueryExecutor.delete table_name execute record_id).1 =
      decide (execute (QueryExecutor.delete_query table_name record_id).1
        (QueryExecutor.delete_query table_name record_id).2 = 1) := by
  refine ⟨?_, rfl, rfl, ?_⟩
  · apply String.ext
    simp [QueryExecutor.delete_query, SQLBuilderM.WHERE, SQLBuilderM._add_param,
      SQLBuilderM.empty, SQLBuilderM.build, joinSep, String.data_append,
      List.append_assoc, show (Nat.repr 1).data = ['1'] from rfl]
  · simp only [QueryExecutor.delete]
    have h01 : execute (QueryExecutor.delete_query table_name record_id).1
        (QueryExecutor.delete_query table_name record_id).2 = 0 ∨
        execute (QueryExecutor.delete_query table_name record_id).1
        (QueryExecutor.delete_query table_name record_id).2 = 1 := by omega
    rcases h01 with h0 | h1
    · rw [h0]
      decide
    · rw [h1]
      decide

/-- C5 witness: the theorem at the users table with an execute oracle
reporting zero affected rows — delete returns false. -/
theorem C5_delete_rowcount_witness :
    (QueryExecutor.delete "users" (fun _ _ => 0) (Value.vstr "u1")).1 = false := by
  have h := (C5_delete_rowcount "users" (Value.vstr "u1") (fun _ _ => 0)
    (by decide)).2.2.2
  simpa using h

/-- Committed effects only grow as pending files are processed. -/
theorem runPending_effects_mono (pending : List String) :
    ∀ (st : MigState) (faults : String → MigFault) (n : String),
      n ∈ st.effects → n ∈ (runPending st pending faults).effects := by
  induction pending with
  | nil => intro st faults n h; exact h
  | cons m ms ih =>
    intro st faults n h
    cases hf : faults m with
    | ok =>
      simp only [runPending, applyOneFile, hf, if_true]
      exact ih _ faults n (List.mem_append_left _ h)
    | failExec =>
      simp only [runPending, applyOneFile, hf]
      exact h
    | failInsert =>
      simp only [runPending, applyOneFile, hf]
      exact List.mem_append_left _ h

/-- Every name the run adds to the ledger also has its effect committed:
the recorded-implies-committed direction of the claim, which the code does
guarantee because the insert follows a successful execute. -/
theorem runPending_ledger_committed (pending : List String) :
    ∀ (st : MigState) (faults : String → MigFault) (n : String),
      n ∈ (runPending st pending faults).ledger →
      n ∈ st.ledger ∨ n ∈ (runPending st pending faults).effects := by
  induction pending with
  | nil => intro st faults n h; exact Or.inl h
  | cons m ms ih =>
    intro st faults n h
    cases hf : faults m with
    | ok =>
      simp only [runPending, applyOneFile, hf, if_true] at h ⊢
      rcases ih _ faults n h with hl | he
      · rcases List.mem_append.mp hl with h1 | h2
        · exact Or.inl h1
        · have hm : n ∈ st.effects ++ [m] := List.mem_append_right _ h2
          exact Or.inr (runPending_effects_mono ms _ faults n hm)
      · exact Or.inr he
    | failExec =>
      simp only [runPending, applyOneFile, hf] at h ⊢
      exact Or.inl h
    | failInsert =>
      simp only [runPending, applyOneFile, hf] at h ⊢
      exact Or.inl h

/-- C1 counterexample: in the concrete run with one pending file, the
file's SQL and the ledger insert are issued as two adjacent plain execute
calls (positions 3 and 4 of the trace) with no transaction around them —
the trace contains no beginTx at all — and injecting a failure into the
ledger insert leaves the database with the effect committed while the
ledger does not record the file, the state the claim says is unreachable. -/
theorem C1_counterexample :
    (apply_migrations_ops false [] [("001_init.sql", "CREATE TABLE t (x INT)")]).get? 3 =
      some (ConnOp.exec "CREATE TABLE t (x INT)" []) ∧
    (apply_migrations_ops false [] [("001_init.sql", "CREATE TABLE t (x INT)")]).get? 4 =
      some (ConnOp.exec "INSERT INTO migrations (name) VALUES ($1)" ["001_init.sql"]) ∧
    ¬ withinTx (apply_migrations_ops false []
        [("001_init.sql", "CREATE TABLE t (x INT)")]) 3 4 ∧
    (runPending ⟨[], []⟩ ["001_init.sql"] (fun _ => MigFault.failInsert)).effects =
      ["001_init.sql"] ∧
    (runPending ⟨[], []⟩ ["001_init.sql"] (fun _ => MigFault.failInsert)).ledger = [] := by
  refine ⟨by decide, by decide, ?_, rfl, rfl⟩
  have hnotin : ConnOp.beginTx ∉ apply_migrations_ops false []
      [("001_init.sql", "CREATE TABLE t (x INT)")] := by decide
  rintro ⟨b, c, _, _, hbeq, _⟩
  exact hnotin (List.get?_mem hbeq)

/-- C1 (amended): apply_migrations issues each pending file's SQL and its
ledger insert as two separate autocommitted statements on a plain pooled
connection (no enclosing transaction). Consequently only one direction of
the claimed atomicity holds: a file recorded by the run always has its
effect committed (the insert follows a successful execute), and the run
halts at the first failure leaving earlier files applied; but when the
ledger insert fails the file's effect stays committed while the file
remains unrecorded, so the database can reach effect-without-record. -/
theorem C1_amended (st : MigState) (pending : List String) (faults : String → MigFault) :
    (∀ n, n ∈ (runPending st pending faults).ledger →
      n ∈ st.ledger ∨ n ∈ (runPending st pending faults).effects) ∧
    (∀ (s : MigState) (name : String), applyOneFile s name MigFault.ok =
      ({ effects := s.effects ++ [name], ledger := s.ledger ++ [name] }, true)) ∧
    (∀ (s : MigState) (name : String), applyOneFile s name MigFault.failExec =
      (s, false)) ∧
    (∀ (s : MigState) (name : String), applyOneFile s name MigFault.failInsert =
      ({ s with effects := s.effects ++ [name] }, false)) ∧
    (∀ n ns, faults n = MigFault.failExec →
      runPending st (n :: ns) faults = st) ∧
    (∀ n ns, faults n = MigFault.failInsert →
      runPending st (n :: ns) faults = { st with effects := st.effects ++ [n] }) := by
  refine ⟨runPending_ledger_committed pending st faults, fun s name => rfl,
    fun s name => rfl, fun s name => rfl, ?_, ?_⟩
  · intro n ns hf
    simp [runPending, applyOneFile, hf]
  · intro n ns hf
    simp [runPending, applyOneFile, hf]

/-- C1 witness: the amended statement applied to a concrete one-file run
that succeeds — the recorded file 001_a.sql has its effect committed — and
to a concrete failing run that halts unchanged. -/
theorem C1_amended_witness :
    ("001_a.sql" ∈ (MigState.mk [] []).ledger ∨
      "001_a.sql" ∈ (runPending ⟨[], []⟩ ["001_a.sql"] (fun _ => MigFault.ok)).effects) ∧
    runPending ⟨["000_z.sql"], ["000_z.sql"]⟩ ["001_a.sql"]
        (fun _ => MigFault.failExec) = ⟨["000_z.sql"], ["000_z.sql"]⟩ := by
  constructor
  · exact (C1_amended ⟨[], []⟩ ["001_a.sql"] (fun _ => MigFault.ok)).1 "001_a.sql" (by decide)
  · exact (C1_amended ⟨["000_z.sql"], ["000_z.sql"]⟩ ["001_a.sql"]
      (fun _ => MigFault.failExec)).2.2.2.2.1 "001_a.sql" [] rfl
